import Mathlib

/-!
Shallow embedding of the widget-registry publishing pipeline
(`scripts/lib/schema.ts`, `scripts/lib/oras.ts` and the publish orchestrator)
into Lean 4, together with theorems settling the specification claims.

Strings are handled at the character-list level; the regular expressions of
the source are translated into structural recursive checkers.
-/

namespace Widgets

/-! ## Character classes -/

/-- `[0-9a-zA-Z-]`, the identifier-character class of `SEMVER_REGEX`. -/
def isIdentChar (c : Char) : Bool := c.isAlphanum || c = '-'

/-- `[1-9]`. -/
def isPosDigit (c : Char) : Bool := '1' ≤ c && c ≤ '9'

/-! ## List-of-characters splitting (models `String.prototype.split` /
anchored decomposition of the regular expressions) -/

/-- Split a character list at every occurrence of `sep`
(like JavaScript `str.split(sep)` for a single-character separator). -/
def splitOnChar (sep : Char) : List Char → List (List Char)
  | [] => [[]]
  | c :: rest =>
    let r := splitOnChar sep rest
    if c = sep then [] :: r
    else
      match r with
      | [] => [[c]]
      | x :: xs => (c :: x) :: xs

/-- Split a character list at the FIRST occurrence of `sep`:
returns the part before it and, when `sep` occurs, the part after it.
Used to decompose a semver string at the build (`+`) and prerelease (`-`)
separators, which cannot occur in the components to their left. -/
def splitAtFirstChar (sep : Char) : List Char → List Char × Option (List Char)
  | [] => ([], none)
  | c :: rest =>
    if c = sep then ([], some rest)
    else
      let p := splitAtFirstChar sep rest
      (c :: p.1, p.2)

/-! ## `SEMVER_REGEX` (schema.ts line 8), translated component by component.

The regex is
`^(0|[1-9]\d*)\.(0|[1-9]\d*)\.(0|[1-9]\d*)`
`(?:-((?:0|[1-9]\d*|\d*[a-zA-Z-][0-9a-zA-Z-]*)(?:\.(?:0|[1-9]\d*|\d*[a-zA-Z-][0-9a-zA-Z-]*))*))?`
`(?:\+([0-9a-zA-Z-]+(?:\.[0-9a-zA-Z-]+)*))?$`.

Since `+` occurs in no component before the build part and `-` occurs in no
component of the numeric core, splitting at the first `+` and then at the
first `-` is exactly the regex's anchored decomposition. -/

/-- `0|[1-9]\d*` — a numeric component with no leading zero. -/
def reNum : List Char → Bool
  | [] => false
  | c :: rest => (isPosDigit c && rest.all Char.isDigit) || (c = '0' && rest.isEmpty)

/-- `0|[1-9]\d*|\d*[a-zA-Z-][0-9a-zA-Z-]*` — one prerelease identifier.
In the third alternative the `\d*` is forced to stop exactly at the first
non-digit (a digit cannot match `[a-zA-Z-]`), so `dropWhile isDigit` is
an exact translation. -/
def rePreId (l : List Char) : Bool :=
  reNum l ||
    (match l.dropWhile Char.isDigit with
     | [] => false
     | c :: rest => (c.isAlpha || c = '-') && rest.all isIdentChar)

/-- `[0-9a-zA-Z-]+` — one build identifier. -/
def reBuildId (l : List Char) : Bool := !l.isEmpty && l.all isIdentChar

/-- The `major.minor.patch` core of `SEMVER_REGEX`. -/
def reCore (l : List Char) : Bool :=
  match splitOnChar '.' l with
  | [ma, mi, pa] => reNum ma && reNum mi && reNum pa
  | _ => false

/-- Whether a character list matches `SEMVER_REGEX` in full. -/
def semverMatchChars (l : List Char) : Bool :=
  let pb := splitAtFirstChar '+' l
  let buildOk :=
    match pb.2 with
    | none => true
    | some b => (splitOnChar '.' b).all reBuildId
  let pd := splitAtFirstChar '-' pb.1
  let preOk :=
    match pd.2 with
    | none => true
    | some p => (splitOnChar '.' p).all rePreId
  reCore pd.1 && preOk && buildOk

/-- Whether a string matches `SEMVER_REGEX` (schema.ts line 8): the check
applied by `WidgetSchema.version` and `WidgetManifestSchema.version`. -/
def semverAccepts (s : String) : Bool := semverMatchChars s.toList

/-! ## The canonical SemVer grammar, written from the specification
("major.minor.patch, optional prerelease, optional build metadata",
the BNF of semver.org), to be compared with the regex above. -/

/-- Modelled from the spec: `<numeric identifier> ::= "0" | <positive digit> |
<positive digit> <digits>` of the canonical SemVer grammar. -/
def numericIdent : List Char → Bool
  | [] => false
  | [c] => c = '0' || isPosDigit c
  | c :: rest => isPosDigit c && rest.all Char.isDigit

/-- Modelled from the spec: `<alphanumeric identifier>` of the canonical
SemVer grammar — identifier characters with at least one non-digit. -/
def alphanumericIdent (l : List Char) : Bool :=
  !l.isEmpty && l.all isIdentChar && l.any (fun c => !c.isDigit)

/-- Modelled from the spec: `<pre-release identifier> ::= <alphanumeric
identifier> | <numeric identifier>`. -/
def grammarPreId (l : List Char) : Bool := numericIdent l || alphanumericIdent l

/-- Modelled from the spec: `<build identifier> ::= <alphanumeric identifier>
| <digits>`. -/
def grammarBuildId (l : List Char) : Bool :=
  alphanumericIdent l || (!l.isEmpty && l.all Char.isDigit)

/-- Modelled from the spec: `<version core> ::= <major> "." <minor> "."
<patch>`, each a numeric identifier. -/
def grammarCore (l : List Char) : Bool :=
  match splitOnChar '.' l with
  | [ma, mi, pa] => numericIdent ma && numericIdent mi && numericIdent pa
  | _ => false

/-- Modelled from the spec: a string of the canonical SemVer grammar —
version core, optional `-`-prefixed dot-separated prerelease, optional
`+`-prefixed dot-separated build metadata. -/
def canonicalSemverChars (l : List Char) : Bool :=
  let pb := splitAtFirstChar '+' l
  let buildOk :=
    match pb.2 with
    | none => true
    | some b => (splitOnChar '.' b).all grammarBuildId
  let pd := splitAtFirstChar '-' pb.1
  let preOk :=
    match pd.2 with
    | none => true
    | some p => (splitOnChar '.' p).all grammarPreId
  grammarCore pd.1 && preOk && buildOk

/-- Modelled from the spec: the canonical SemVer grammar on strings. -/
def canonicalSemver (s : String) : Bool := canonicalSemverChars s.toList

/-! ## `SAFE_ID_REGEX` (schema.ts line 11): `^[a-zA-Z0-9-_]+$` -/

def isSafeIdChar (c : Char) : Bool := c.isAlphanum || c = '-' || c = '_'

/-- Whether a string matches `SAFE_ID_REGEX`. -/
def safeIdAccepts (s : String) : Bool :=
  !s.toList.isEmpty && s.toList.all isSafeIdChar

/-! ## Leaf validators of the zod library (an external collaborator),
modelled from its documented behavior -/

def isHexChar (c : Char) : Bool :=
  c.isDigit || ('a' ≤ c && c ≤ 'f') || ('A' ≤ c && c ≤ 'F')

/-- Modelled from the zod library (external collaborator):
`z.union([z.hash("sha1"), z.hash("sha256")])` — a 40- or 64-character
hexadecimal string. -/
def commitHashAccepts (s : String) : Bool :=
  (s.toList.length == 40 || s.toList.length == 64) && s.toList.all isHexChar

def isSchemeChar (c : Char) : Bool := c.isAlphanum || c = '+' || c = '-' || c = '.'

def schemeRest : List Char → Bool
  | [] => false
  | ':' :: _ => true
  | c :: rest => isSchemeChar c && schemeRest rest

/-- Modelled from the zod library (external collaborator): `z.url()` accepts
strings the WHATWG `URL` constructor parses; modelled as an ASCII-alpha
initial character followed by scheme characters and a colon. -/
def isUrl (s : String) : Bool :=
  match s.toList with
  | c :: rest => c.isAlpha && schemeRest rest
  | [] => false

def isEmailLocalChar (c : Char) : Bool :=
  c.isAlphanum || c = '.' || c = '_' || c = '+' || c = '-'

def isEmailDomainChar (c : Char) : Bool := c.isAlphanum || c = '-' || c = '.'

/-- Modelled from the zod library (external collaborator): `z.email()`;
modelled as a non-empty local part of common address characters, `@`, and a
non-empty domain containing a dot. -/
def isEmail (s : String) : Bool :=
  let p := splitAtFirstChar '@' s.toList
  match p.2 with
  | some domain =>
      !p.1.isEmpty && p.1.all isEmailLocalChar &&
      !domain.isEmpty && domain.all isEmailDomainChar &&
      domain.any (fun c => c = '.')
  | none => false

def digitVal (c : Char) : Nat := c.toNat - '0'.toNat

def isLeapYear (y : Nat) : Bool :=
  (y % 4 == 0 && y % 100 != 0) || y % 400 == 0

def daysInMonth (y m : Nat) : Nat :=
  if m = 2 then (if isLeapYear y then 29 else 28)
  else if m = 4 || m = 6 || m = 9 || m = 11 then 30
  else 31

/-- One or more digits followed by a final `Z` (continuation). -/
def moreDigitsThenZ : List Char → Bool
  | [] => false
  | ['Z'] => true
  | c :: rest => c.isDigit && moreDigitsThenZ rest

/-- One or more digits followed by a final `Z`. -/
def digitsThenZ : List Char → Bool
  | [] => false
  | c :: rest => c.isDigit && moreDigitsThenZ rest

/-- The tail of an ISO datetime after `HH:MM`: either `Z`, or `:SS` with an
optional fractional part, then `Z`. -/
def timeTail : List Char → Bool
  | ['Z'] => true
  | ':' :: s1 :: s2 :: rest =>
      s1.isDigit && s2.isDigit && decide (10 * digitVal s1 + digitVal s2 ≤ 59) &&
      (match rest with
       | ['Z'] => true
       | '.' :: frac => digitsThenZ frac
       | _ => false)
  | _ => false

def isoDatetimeChars : List Char → Bool
  | y1 :: y2 :: y3 :: y4 :: '-' :: m1 :: m2 :: '-' :: d1 :: d2 ::
      'T' :: h1 :: h2 :: ':' :: mi1 :: mi2 :: rest =>
      y1.isDigit && y2.isDigit && y3.isDigit && y4.isDigit &&
      m1.isDigit && m2.isDigit && d1.isDigit && d2.isDigit &&
      h1.isDigit && h2.isDigit && mi1.isDigit && mi2.isDigit &&
      (let y := 1000 * digitVal y1 + 100 * digitVal y2 + 10 * digitVal y3 + digitVal y4
       let m := 10 * digitVal m1 + digitVal m2
       let d := 10 * digitVal d1 + digitVal d2
       let h := 10 * digitVal h1 + digitVal h2
       let mi := 10 * digitVal mi1 + digitVal mi2
       decide (1 ≤ m) && decide (m ≤ 12) && decide (1 ≤ d) &&
       decide (d ≤ daysInMonth y m) && decide (h ≤ 23) && decide (mi ≤ 59)) &&
      timeTail rest
  | _ => false

/-- Modelled from the zod library (external collaborator): `z.iso.datetime()`
with default options — `YYYY-MM-DDTHH:MM(:SS(.d+)?)?Z` with a calendar-valid
date, hour 00-23, minute and second 00-59. -/
def isoDatetime (s : String) : Bool := isoDatetimeChars s.toList

/-! ## JSON values

`JSON.parse` / `JSON.stringify` and the YAML parser are external
collaborators; files and tool outputs are modelled as the JSON values they
hold. All numeric fields of the schemas are `z.int()`, so numbers are
modelled as integers. -/

inductive Json where
  | null
  | bool (b : Bool)
  | num (n : Int)
  | str (s : String)
  | arr (elems : List Json)
  | obj (fields : List (String × Json))

/-- Property lookup on a parsed JSON object: `JSON.parse` keeps the LAST
occurrence of a duplicated key. -/
def lookupField : List (String × Json) → String → Option Json
  | [], _ => none
  | (k', v) :: rest, k =>
    match lookupField rest k with
    | some v' => some v'
    | none => if k' = k then some v else none

def Json.getField : Json → String → Option Json
  | .obj fields, k => lookupField fields k
  | _, _ => none

/-! ## Decoding helpers (zod `z.object` field access; a missing required
field or a wrong-typed value is a validation error) -/

def getStr (j : Json) (k : String) : Except String String :=
  match j.getField k with
  | some (.str s) => .ok s
  | some _ => .error (k ++ ": expected string")
  | none => .error (k ++ ": required")

def getOptStr (j : Json) (k : String) : Except String (Option String) :=
  match j.getField k with
  | none => .ok none
  | some (.str s) => .ok (some s)
  | some _ => .error (k ++ ": expected string")

def getInt (j : Json) (k : String) : Except String Int :=
  match j.getField k with
  | some (.num n) => .ok n
  | some _ => .error (k ++ ": expected int")
  | none => .error (k ++ ": required")

def getOptInt (j : Json) (k : String) : Except String (Option Int) :=
  match j.getField k with
  | none => .ok none
  | some (.num n) => .ok (some n)
  | some _ => .error (k ++ ": expected int")

def getArr (j : Json) (k : String) : Except String (List Json) :=
  match j.getField k with
  | some (.arr es) => .ok es
  | some _ => .error (k ++ ": expected array")
  | none => .error (k ++ ": required")

/-- Parse every element of a list (zod `z.array(schema)`). -/
def decodeAll {α : Type} (d : Json → Except String α) :
    List Json → Except String (List α)
  | [] => .ok []
  | j :: rest => do
      let a ← d j
      let as ← decodeAll d rest
      return a :: as

def checkOptStr (p : String → Bool) (msg : String) :
    Option String → Except String Unit
  | none => .ok ()
  | some s => if p s then .ok () else .error msg

/-! ## Data model and schema validation (schema.ts) -/

/-- `WidgetSchema` (schema.ts 26-31). -/
structure Widget where
  version : String
  repo : String
  commit : String
  path : Option String
deriving DecidableEq, Repr

def decodeWidget (j : Json) : Except String Widget := do
  let version ← getStr j "version"
  if !semverAccepts version then throw "widget.version: invalid semver"
  let repo ← getStr j "repo"
  if !isUrl repo then throw "widget.repo: invalid url"
  let commit ← getStr j "commit"
  if !commitHashAccepts commit then throw "widget.commit: invalid hash"
  let path ← getOptStr j "path"
  return ⟨version, repo, commit, path⟩

/-- `WidgetManifestAuthorSchema` (schema.ts 35-42):
`z.union([z.string(), z.object({name, email?, url?})])`. -/
inductive Author where
  | str (name : String)
  | obj (name : String) (email : Option String) (url : Option String)
deriving DecidableEq, Repr

def decodeAuthor (j : Json) : Except String Author :=
  match j with
  | .str s => .ok (.str s)
  | _ => do
      let name ← getStr j "name"
      let email ← getOptStr j "email"
      let _ ← checkOptStr isEmail "author.email: invalid email" email
      let url ← getOptStr j "url"
      let _ ← checkOptStr isUrl "author.url: invalid url" url
      return .obj name email url

/-- `WidgetManifestSchema` (schema.ts 46-53). -/
structure WidgetManifest where
  name : String
  version : String
  authors : List Author
  license : String
  description : String
  homepage : String
deriving DecidableEq, Repr

def decodeManifest (j : Json) : Except String WidgetManifest := do
  let name ← getStr j "name"
  if name.length > 80 then throw "manifest.name: too long"
  let version ← getStr j "version"
  if !semverAccepts version then throw "manifest.version: invalid semver"
  let authorsJson ← getArr j "authors"
  let authors ← decodeAll decodeAuthor authorsJson
  if authors.isEmpty then throw "manifest.authors: must be non-empty"
  let license ← getStr j "license"
  let description ← getStr j "description"
  if description.length > 160 then throw "manifest.description: too long"
  let homepage ← getStr j "homepage"
  if !isUrl homepage then throw "manifest.homepage: invalid url"
  return ⟨name, version, authors, license, description, homepage⟩

/-- `PublishPlanEntrySchema` (schema.ts 55-60): `handle` and `id` are plain
`z.string()` — no charset restriction is applied to either. -/
structure PublishPlanEntry where
  handle : String
  id : String
  widget : Widget
  manifest : WidgetManifest
deriving DecidableEq, Repr

def decodePublishPlanEntry (j : Json) : Except String PublishPlanEntry := do
  let handle ← getStr j "handle"
  let id ← getStr j "id"
  let widgetJson ← match j.getField "widget" with
    | some w => pure w
    | none => throw "widget: required"
  let widget ← decodeWidget widgetJson
  let manifestJson ← match j.getField "manifest" with
    | some m => pure m
    | none => throw "manifest: required"
  let manifest ← decodeManifest manifestJson
  return ⟨handle, id, widget, manifest⟩

/-- `PublishPlanSchema` (schema.ts 62), applied to the line-parsed plan. -/
def decodePublishPlan (lines : List Json) : Except String (List PublishPlanEntry) :=
  decodeAll decodePublishPlanEntry lines

/-- `WidgetsSchema` (schema.ts 33):
`z.record(z.string().regex(SAFE_ID_REGEX), WidgetSchema)` — every KEY must
match `SAFE_ID_REGEX`, every value must be a valid `Widget`. -/
def decodeWidgetsFields : List (String × Json) → Except String (List (String × Widget))
  | [] => .ok []
  | (k, v) :: rest =>
      if safeIdAccepts k then do
        let w ← decodeWidget v
        let ws ← decodeWidgetsFields rest
        return (k, w) :: ws
      else .error ("widgets: key does not match SAFE_ID_REGEX: " ++ k)

def decodeWidgets (j : Json) : Except String (List (String × Widget)) :=
  match j with
  | .obj fields => decodeWidgetsFields fields
  | _ => .error "widgets: expected object"

/-- `PublisherSchema` (schema.ts 13-24). -/
structure Publisher where
  organization : Option Int
  user : Option Int
  extraMaintainers : Option (List Int)
deriving DecidableEq, Repr

def decodeIntLit (j : Json) : Except String Int :=
  match j with
  | .num n => .ok n
  | _ => .error "expected int"

def decodePublisher (j : Json) : Except String Publisher := do
  let organization ← getOptInt j "organization"
  let user ← getOptInt j "user"
  let extraMaintainers ← match j.getField "extraMaintainers" with
    | none => pure none
    | some (.arr es) => do
        let ns ← decodeAll decodeIntLit es
        pure (some ns)
    | some _ => throw "extraMaintainers: expected array"
  if (organization.isSome != user.isSome) then
    return ⟨organization, user, extraMaintainers⟩
  else
    throw "Exactly one of organization or user should be provided"

/-- `RegistryEntryReleaseSchema` (schema.ts 80-84). -/
structure RegistryEntryRelease where
  version : String
  publishedAt : String
  digest : String
deriving DecidableEq, Repr

def decodeRelease (j : Json) : Except String RegistryEntryRelease := do
  let version ← getStr j "version"
  let publishedAt ← getStr j "publishedAt"
  if !isoDatetime publishedAt then throw "release.publishedAt: invalid datetime"
  let digest ← getStr j "digest"
  return ⟨version, publishedAt, digest⟩

/-- `RegistryEntrySchema` (schema.ts 86-93). -/
structure RegistryEntry where
  handle : String
  id : String
  name : String
  authors : List Author
  description : String
  releases : List RegistryEntryRelease
deriving DecidableEq, Repr

def decodeRegistryEntry (j : Json) : Except String RegistryEntry := do
  let handle ← getStr j "handle"
  let id ← getStr j "id"
  let name ← getStr j "name"
  let authorsJson ← getArr j "authors"
  let authors ← decodeAll decodeAuthor authorsJson
  if authors.isEmpty then throw "entry.authors: must be non-empty"
  let description ← getStr j "description"
  let releasesJson ← getArr j "releases"
  let releases ← decodeAll decodeRelease releasesJson
  if releases.isEmpty then throw "entry.releases: must be non-empty"
  return ⟨handle, id, name, authors, description, releases⟩

/-- `RegistryIndexSchema` (schema.ts 95-99). -/
structure RegistryIndex where
  api : Int
  generatedAt : String
  widgets : List RegistryEntry
deriving DecidableEq, Repr

def decodeRegistryIndex (j : Json) : Except String RegistryIndex := do
  let api ← getInt j "api"
  let generatedAt ← getStr j "generatedAt"
  if !isoDatetime generatedAt then throw "index.generatedAt: invalid datetime"
  let widgetsJson ← getArr j "widgets"
  let widgets ← decodeAll decodeRegistryEntry widgetsJson
  return ⟨api, generatedAt, widgets⟩

/-! ## Serialization (`JSON.stringify` of the typed index, at the JSON-value
level; `undefined` optional fields are omitted, fields appear in declaration
order) -/

def encodeAuthor : Author → Json
  | .str s => .str s
  | .obj name email url =>
      .obj ([("name", Json.str name)] ++
        (match email with | some e => [("email", Json.str e)] | none => []) ++
        (match url with | some u => [("url", Json.str u)] | none => []))

def encodeRelease (r : RegistryEntryRelease) : Json :=
  .obj [("version", .str r.version), ("publishedAt", .str r.publishedAt),
        ("digest", .str r.digest)]

def encodeRegistryEntry (e : RegistryEntry) : Json :=
  .obj [("handle", .str e.handle), ("id", .str e.id), ("name", .str e.name),
        ("authors", .arr (e.authors.map encodeAuthor)),
        ("description", .str e.description),
        ("releases", .arr (e.releases.map encodeRelease))]

def registryIndexToJson (x : RegistryIndex) : Json :=
  .obj [("api", .num x.api), ("generatedAt", .str x.generatedAt),
        ("widgets", .arr (x.widgets.map encodeRegistryEntry))]

/-- Models `writeRegistryIndex` (schema.ts 150-154): the file
`<dir>/index.json` is overwritten with `JSON.stringify(index)`. -/
def writeRegistryIndexFile (x : RegistryIndex) : Option Json :=
  some (registryIndexToJson x)

/-- Models `parseRegistryIndex` (schema.ts 143-148): reads `<dir>/index.json`
(`fs.readFile` THROWS when the file is absent — there is no default), then
`JSON.parse` and `RegistryIndexSchema.parse`. The file is modelled as the
JSON value it holds, `none` when absent. -/
def parseRegistryIndexFile (file : Option Json) : Except String RegistryIndex :=
  match file with
  | none => .error "ENOENT: no such file or directory: index.json"
  | some j => decodeRegistryIndex j

/-! ## Schema validity of typed values (used to state the round-trip) -/

def optValid (p : String → Bool) : Option String → Bool
  | none => true
  | some s => p s

def authorValid : Author → Bool
  | .str _ => true
  | .obj _ email url => optValid isEmail email && optValid isUrl url

def releaseValid (r : RegistryEntryRelease) : Bool := isoDatetime r.publishedAt

def registryEntryValid (e : RegistryEntry) : Bool :=
  !e.authors.isEmpty && e.authors.all authorValid &&
  !e.releases.isEmpty && e.releases.all releaseValid

def registryIndexValid (x : RegistryIndex) : Bool :=
  isoDatetime x.generatedAt && x.widgets.all registryEntryValid

/-! ## The publish orchestrator (src/unnamed/part_000, lines 28-118) -/

/-- One accumulated item of `registryUpdatePlan` (orchestrator line 62):
`{ ...planEntry, publishedAt, digest }`. -/
structure RegistryUpdate where
  handle : String
  id : String
  widget : Widget
  manifest : WidgetManifest
  publishedAt : String
  digest : String
deriving DecidableEq, Repr

/-- `releaseData` (orchestrator 79-83). -/
def releaseData (u : RegistryUpdate) : RegistryEntryRelease :=
  ⟨u.widget.version, u.publishedAt, u.digest⟩

/-- The new entry created when no `(handle, id)` match exists
(orchestrator 85-94). -/
def freshEntry (u : RegistryUpdate) : RegistryEntry :=
  ⟨u.handle, u.id, u.manifest.name, u.manifest.authors,
   u.manifest.description, [releaseData u]⟩

/-- The in-place update of a matching entry (orchestrator 101-104):
descriptive fields overwritten, the new release `unshift`ed (prepended). -/
def updateEntry (u : RegistryUpdate) (e : RegistryEntry) : RegistryEntry :=
  { e with name := u.manifest.name, authors := u.manifest.authors,
           description := u.manifest.description,
           releases := releaseData u :: e.releases }

/-- One iteration of the merge loop (orchestrator 73-108): `find` the first
entry with the same `(handle, id)`; update it in place when found, `push` a
fresh entry at the END of the list otherwise. -/
def mergeUpdate : List RegistryEntry → RegistryUpdate → List RegistryEntry
  | [], u => [freshEntry u]
  | e :: rest, u =>
      if e.handle = u.handle ∧ e.id = u.id then updateEntry u e :: rest
      else e :: mergeUpdate rest u

/-- Lexicographic code-point comparison of character lists, modelling
`String.prototype.localeCompare` (whose result sign the sort comparator
consumes) as ordinal comparison. -/
def cmpChars : List Char → List Char → Ordering
  | [], [] => .eq
  | [], _ :: _ => .lt
  | _ :: _, [] => .gt
  | a :: as, b :: bs => if a < b then .lt else if b < a then .gt else cmpChars as bs

/-- `a.localeCompare(b)` modelled by its sign. -/
def localeCmp (a b : String) : Ordering := cmpChars a.toList b.toList

/-- The comparator of `registryIndex.widgets.sort` (orchestrator 110-115):
handles compared first, ids only when the handles agree. -/
def entryCmp (a b : RegistryEntry) : Ordering :=
  if a.handle ≠ b.handle then localeCmp a.handle b.handle
  else localeCmp a.id b.id

/-- "`a` sorts before `b` or ties": the comparator's value is ≤ 0. -/
def entryLE (a b : RegistryEntry) : Prop := entryCmp a b ≠ .gt

instance entryLE.decRel : DecidableRel entryLE :=
  fun a b => inferInstanceAs (Decidable (entryCmp a b ≠ .gt))

/-- `registryIndex.widgets.sort(...)` (orchestrator 110-115).
`Array.prototype.sort` is a stable sort consistent with the comparator, and
the stable sorted permutation is unique, so it is modelled by (stable)
insertion sort. -/
def sortWidgets (ws : List RegistryEntry) : List RegistryEntry :=
  ws.insertionSort entryLE

/-- The post-loop index merge (orchestrator 65-117): `api := 1`,
`generatedAt := now` (a single shared timestamp), fold every accumulated
update into the widgets list, then sort. The result is what
`writeRegistryIndex` persists. -/
def mergeRegistryIndex (prior : RegistryIndex) (nowIso : String)
    (updates : List RegistryUpdate) : RegistryIndex :=
  { api := 1, generatedAt := nowIso,
    widgets := sortWidgets (updates.foldl mergeUpdate prior.widgets) }

/-- `OrasPushOutputSchema` (schema.ts 64-78); the orchestrator consumes
`digest` and `annotations`. -/
structure OrasPushOutput where
  mediaType : String
  digest : String
  size : Int
  urls : Option (List String)
  annotations : Option (List (String × String))
  data : Option String
  artifactType : Option String
  reference : String
  referenceAsTags : List String

/-- Record lookup on a JSON-parsed string record (last occurrence wins). -/
def lookupStr : List (String × String) → String → Option String
  | [], _ => none
  | (k', v) :: rest, k =>
    match lookupStr rest k with
    | some v' => some v'
    | none => if k' = k then some v else none

/-- `publishedAt` selection (orchestrator 55-60): start from the wall-clock
timestamp taken while processing THIS entry, then override it with the push
tool's `org.opencontainers.image.created` annotation when that is defined
(`annotations?.[...]` — optional chaining). -/
def selectPublishedAt (nowAtEntry : String)
    (annotations : Option (List (String × String))) : String :=
  match annotations.bind (fun as => lookupStr as "org.opencontainers.image.created") with
  | some created => created
  | none => nowAtEntry

/-- One iteration of the publish loop (orchestrator 31-63) after the push
has returned: the accumulated update. `nowAtEntry` is the wall clock at the
moment this entry is processed. -/
def processEntry (nowAtEntry : String) (entry : PublishPlanEntry)
    (push : OrasPushOutput) : RegistryUpdate :=
  ⟨entry.handle, entry.id, entry.widget, entry.manifest,
   selectPublishedAt nowAtEntry push.annotations, push.digest⟩

/-- The publish loop (orchestrator 31-63), with the wall clock modelled as a
sequence of instants: the entry at position `i` of the plan reads
`clock i` — its own instant, distinct from the pipeline start and from the
merge pass's shared `generatedAt`. -/
def runPublishLoop (clock : Nat → String) :
    Nat → List (PublishPlanEntry × OrasPushOutput) → List RegistryUpdate
  | _, [] => []
  | i, (e, p) :: rest =>
      processEntry (clock i) e p :: runPublishLoop clock (i + 1) rest

/-! ## The artifact pusher (`oras.ts`, `push`, lines 124-177) -/

/-- JSON string escaping of `JSON.stringify` (external runtime), modelled
for the common escapes. -/
def jsonEscapeChar (c : Char) : List Char :=
  if c = '"' then ['\\', '"']
  else if c = '\\' then ['\\', '\\']
  else if c = '\n' then ['\\', 'n']
  else if c = '\r' then ['\\', 'r']
  else if c = '\t' then ['\\', 't']
  else [c]

def jsonStrLit (s : String) : String :=
  ⟨'"' :: ((s.toList.map jsonEscapeChar).flatten ++ ['"'])⟩

/-- `JSON.stringify` of one author value (external runtime, modelled;
`undefined` fields are omitted, fields in declaration order). -/
def stringifyAuthor : Author → String
  | .str s => jsonStrLit s
  | .obj name email url =>
      "\x7b" ++ String.intercalate ","
        ([jsonStrLit "name" ++ ":" ++ jsonStrLit name] ++
         (match email with
          | some e => [jsonStrLit "email" ++ ":" ++ jsonStrLit e]
          | none => []) ++
         (match url with
          | some u => [jsonStrLit "url" ++ ":" ++ jsonStrLit u]
          | none => [])) ++ "\x7d"

/-- `JSON.stringify(manifest.authors)` (oras.ts line 140), modelled. -/
def stringifyAuthors (authors : List Author) : String :=
  "[" ++ String.intercalate "," (authors.map stringifyAuthor) ++ "]"

/-- `standardAnnotations` (oras.ts 138-149): the standard OCI keys paired
with their (possibly undefined) values, in declaration order. `created` is
always `undefined` — left for the push tool to fill. -/
def standardAnnotations (widget : Widget) (manifest : WidgetManifest) :
    List (String × Option String) :=
  [("created", none),
   ("authors", some (stringifyAuthors manifest.authors)),
   ("url", some manifest.homepage),
   ("source", some (widget.repo ++ "@" ++ widget.commit)),
   ("version", some widget.version),
   ("revision", some widget.commit),
   ("vendor", some "Deskulpt"),
   ("licenses", some manifest.license),
   ("title", some manifest.name),
   ("description", some manifest.description)]

/-- The `--annotation` arguments (oras.ts 161-165): one
`org.opencontainers.image.<key>=<value>` per annotation whose value is
defined (`value !== undefined`). -/
def annotationArgs : List (String × Option String) → List String
  | [] => []
  | (k, some v) :: rest =>
      "--annotation" :: ("org.opencontainers.image." ++ k ++ "=" ++ v)
        :: annotationArgs rest
  | (_, none) :: rest => annotationArgs rest

/-- The full oras command line built by `push` (oras.ts 151-173). -/
def pushArgs (dst : String) (widget : Widget) (manifest : WidgetManifest)
    (dryRun : Bool) : List String :=
  ["push", "--artifact-type", "application/vnd.deskulpt.widget.v1"]
    ++ (if dryRun then ["--oci-layout"] else [])
    ++ annotationArgs (standardAnnotations widget manifest)
    ++ [dst ++ ":v" ++ manifest.version, "./", "--no-tty", "--format", "json"]

/-! ## Typed-value schema validity for plan inputs -/

def widgetValid (w : Widget) : Bool :=
  semverAccepts w.version && isUrl w.repo && commitHashAccepts w.commit

def manifestValid (m : WidgetManifest) : Bool :=
  decide (m.name.length ≤ 80) && semverAccepts m.version &&
  !m.authors.isEmpty && m.authors.all authorValid &&
  decide (m.description.length ≤ 160) && isUrl m.homepage

/-! ## Auxiliary metadata lookups (schema.ts 101-119) -/

/-- Modelled from the spec: the Version-Control Accessor's auxiliary reads
(`git.fileExistsAtCommit` / `git.showFileAtCommit` of `scripts/lib/git.ts`,
a repository file absent from the provided sources) — "read a single file's
contents, or test its existence, at a given commit". Modelled as a map from
(path, commit) to the file's parsed-YAML content, `none` when the file does
not exist at that commit. -/
def GitStore := String → String → Option Json

/-- `parsePublisher` (schema.ts 101-109): return `undefined` when
`publishers/<entry>.yaml` does not exist at the commit; otherwise parse and
schema-validate its content. -/
def parsePublisher (store : GitStore) (entry commit : String) :
    Except String (Option Publisher) :=
  match store ("publishers/" ++ entry ++ ".yaml") commit with
  | none => .ok none
  | some j => (decodePublisher j).map some

/-- `parseWidgets` (schema.ts 111-119): return `undefined` when
`widgets/<entry>.yaml` does not exist at the commit; otherwise parse and
schema-validate its content. -/
def parseWidgets (store : GitStore) (entry commit : String) :
    Except String (Option (List (String × Widget))) :=
  match store ("widgets/" ++ entry ++ ".yaml") commit with
  | none => .ok none
  | some j => (decodeWidgets j).map some

/-! ## Concrete sample values (used by examples and witnesses) -/

def sampleCommit : String := "aaaaaaaaaaaaaaaaaaaaaaaaaaaaaaaaaaaaaaaa"

def sampleWidget : Widget :=
  ⟨"1.0.0", "https://example.com/r.git", sampleCommit, none⟩

def sampleWidget2 : Widget :=
  ⟨"1.1.0", "https://example.com/r.git", sampleCommit, none⟩

def sampleManifest : WidgetManifest :=
  ⟨"Clock", "1.0.0", [.str "A"], "MIT", "A clock", "https://example.com"⟩

def sampleManifest2 : WidgetManifest :=
  ⟨"Clock II", "1.1.0", [.str "B"], "Apache-2.0", "A nicer clock",
   "https://example.org"⟩

/-- A manifest that is schema-valid (`license` is a plain `z.string()`)
whose `license` is the EMPTY string. -/
def emptyLicenseManifest : WidgetManifest :=
  ⟨"Clock", "1.0.0", [.str "A"], "", "A clock", "https://example.com"⟩

def sampleUpdate1 : RegistryUpdate :=
  ⟨"acme", "clock", sampleWidget, sampleManifest,
   "2024-01-01T00:00:00Z", "sha256:1111"⟩

def sampleUpdate2 : RegistryUpdate :=
  ⟨"acme", "clock", sampleWidget2, sampleManifest2,
   "2024-01-02T00:00:00Z", "sha256:2222"⟩

/-- An existing registry entry for `(acme, clock)` with one release. -/
def sampleEntry : RegistryEntry :=
  ⟨"acme", "clock", "Old Clock", [.str "O"], "Old description",
   [⟨"0.9.0", "2023-12-01T00:00:00Z", "sha256:0000"⟩]⟩

def entryA1 : RegistryEntry :=
  ⟨"a", "1", "", [.str "A"], "", [⟨"1.0.0", "2024-01-01T00:00:00Z", "d"⟩]⟩

def entryA2 : RegistryEntry :=
  ⟨"a", "2", "", [.str "A"], "", [⟨"1.0.0", "2024-01-01T00:00:00Z", "d"⟩]⟩

def entryB1 : RegistryEntry :=
  ⟨"b", "1", "", [.str "A"], "", [⟨"1.0.0", "2024-01-01T00:00:00Z", "d"⟩]⟩

def sampleIndex : RegistryIndex := ⟨1, "2024-01-02T12:00:00Z", [sampleEntry]⟩

def sampleWidgetJson : Json :=
  .obj [("version", .str "1.0.0"), ("repo", .str "https://example.com/r.git"),
        ("commit", .str sampleCommit)]

def badVersionWidgetJson : Json :=
  .obj [("version", .str "1.2"), ("repo", .str "https://example.com/r.git"),
        ("commit", .str sampleCommit)]

def sampleManifestJson : Json :=
  .obj [("name", .str "Clock"), ("version", .str "1.0.0"),
        ("authors", .arr [.str "A"]), ("license", .str "MIT"),
        ("description", .str "A clock"), ("homepage", .str "https://example.com")]

def badVersionManifestJson : Json :=
  .obj [("name", .str "Clock"), ("version", .str "v1.2.3"),
        ("authors", .arr [.str "A"]), ("license", .str "MIT"),
        ("description", .str "A clock"), ("homepage", .str "https://example.com")]

/-- A plan-entry JSON whose `id` contains characters outside
`[a-zA-Z0-9-_]` (a space and `!`). -/
def badIdPlanEntryJson : Json :=
  .obj [("handle", .str "acme"), ("id", .str "bad id!"),
        ("widget", sampleWidgetJson), ("manifest", sampleManifestJson)]

def samplePushWithCreated : OrasPushOutput :=
  ⟨"application/vnd.oci.image.manifest.v1+json", "sha256:1111", 100, none,
   some [("org.opencontainers.image.created", "2024-03-03T03:03:03Z")],
   none, none, "ghcr.io/acme/clock:v1.0.0", ["v1.0.0"]⟩

def samplePushPlain : OrasPushOutput :=
  ⟨"application/vnd.oci.image.manifest.v1+json", "sha256:2222", 100, none,
   none, none, none, "ghcr.io/acme/clock:v1.1.0", ["v1.1.0"]⟩

def samplePlanEntry : PublishPlanEntry :=
  ⟨"acme", "clock", sampleWidget, sampleManifest⟩

def sampleClock : Nat → String :=
  fun n => if n = 0 then "2024-05-05T00:00:00Z" else "2024-05-05T00:01:00Z"

def sampleLoopInputs : List (PublishPlanEntry × OrasPushOutput) :=
  [(samplePlanEntry, samplePushWithCreated), (samplePlanEntry, samplePushPlain)]

def emptyStore : GitStore := fun _ _ => none

def samplePublisherJson : Json := .obj [("user", .num 42)]

/-- A publisher document violating the `refine` (both `organization` and
`user` provided). -/
def badPublisherJson : Json :=
  .obj [("organization", .num 1), ("user", .num 2)]

def sampleStore : GitStore := fun path commit =>
  if path = "publishers/acme.yaml" ∧ commit = sampleCommit then
    some samplePublisherJson
  else if path = "widgets/acme.yaml" ∧ commit = sampleCommit then
    some (Json.obj [("clock", sampleWidgetJson)])
  else none

def badStore : GitStore := fun path commit =>
  if path = "publishers/acme.yaml" ∧ commit = sampleCommit then
    some badPublisherJson
  else none

/-! # Theorems -/

/-! ### Equivalence of the regex and the grammar -/

theorem identChar_of_digit (c : Char) (h : c.isDigit = true) :
    isIdentChar c = true := by
  simp [isIdentChar, Char.isAlphanum, h]

theorem reNum_eq_numericIdent (l : List Char) : reNum l = numericIdent l := by
  match l with
  | [] => rfl
  | [c] =>
    simp [reNum, numericIdent, Bool.or_comm]
  | c :: c' :: rest =>
    simp [reNum, numericIdent]

theorem alt3_eq_alphanumericIdent (l : List Char) :
    (match l.dropWhile Char.isDigit with
     | [] => false
     | c :: rest => (c.isAlpha || c = '-') && rest.all isIdentChar)
      = alphanumericIdent l := by
  induction l with
  | nil => rfl
  | cons c rest ih =>
    by_cases hd : c.isDigit = true
    · rw [List.dropWhile_cons_of_pos hd]
      rw [ih]
      simp only [alphanumericIdent, List.isEmpty_cons, List.all_cons, List.any_cons, hd,
        identChar_of_digit c hd, Bool.not_false, Bool.not_true, Bool.false_or, Bool.true_and]
      cases hrest : rest with
      | nil => simp
      | cons d ds => simp
    · rw [List.dropWhile_cons_of_neg hd]
      have hd' : c.isDigit = false := by
        cases h : c.isDigit
        · rfl
        · exact absurd h hd
      have hic : isIdentChar c = (c.isAlpha || c = '-') := by
        simp [isIdentChar, Char.isAlphanum, hd']
      simp only [alphanumericIdent, List.isEmpty_cons, List.all_cons, List.any_cons, hd',
        Bool.not_false, Bool.true_or, Bool.and_true, Bool.not_true, hic]
      cases hca : (c.isAlpha || c = '-') with
      | false => simp
      | true => simp

theorem rePreId_eq_grammarPreId (l : List Char) : rePreId l = grammarPreId l := by
  unfold rePreId grammarPreId
  rw [reNum_eq_numericIdent, alt3_eq_alphanumericIdent]

theorem all_digit_all_ident (l : List Char) (h : l.all Char.isDigit = true) :
    l.all isIdentChar = true := by
  rw [List.all_eq_true] at h ⊢
  intro c hc
  exact identChar_of_digit c (h c hc)

theorem reBuildId_eq_grammarBuildId (l : List Char) :
    reBuildId l = grammarBuildId l := by
  unfold reBuildId grammarBuildId alphanumericIdent
  cases he : l.isEmpty
  · simp only [Bool.not_false, Bool.true_and]
    cases hall : l.all isIdentChar
    · simp only [Bool.false_and, Bool.false_or, Bool.and_false]
      cases hd : l.all Char.isDigit
      · rfl
      · exact absurd (all_digit_all_ident l hd) (by simp [hall])
    · simp only [Bool.true_and, Bool.and_true]
      cases hany : l.any (fun c => !c.isDigit)
      · have : l.all Char.isDigit = true := by
          rw [List.all_eq_true]
          intro c hc
          rw [List.any_eq_false] at hany
          have := hany c hc
          simpa using this
        simp [this]
      · simp
  · simp [List.isEmpty_iff.mp he]

theorem reCore_eq_grammarCore (l : List Char) : reCore l = grammarCore l := by
  unfold reCore grammarCore
  cases h : splitOnChar '.' l with
  | nil => rfl
  | cons a t =>
    cases t with
    | nil => rfl
    | cons b t2 =>
      cases t2 with
      | nil => rfl
      | cons c t3 =>
        cases t3 with
        | nil => simp [reNum_eq_numericIdent]
        | cons d t4 => rfl

theorem all_parts_congr (p q : List Char → Bool) (h : ∀ x, p x = q x) :
    ∀ l : List (List Char), l.all p = l.all q := by
  intro l
  induction l with
  | nil => rfl
  | cons x xs ih => simp only [List.all_cons, h x, ih]

theorem semverMatchChars_eq_canonical (l : List Char) :
    semverMatchChars l = canonicalSemverChars l := by
  simp only [semverMatchChars, canonicalSemverChars]
  cases hb : (splitAtFirstChar '+' l).2 with
  | none =>
    cases hp : (splitAtFirstChar '-' (splitAtFirstChar '+' l).1).2 with
    | none => simp [reCore_eq_grammarCore]
    | some p =>
      simp [reCore_eq_grammarCore, all_parts_congr _ _ rePreId_eq_grammarPreId]
  | some b =>
    cases hp : (splitAtFirstChar '-' (splitAtFirstChar '+' l).1).2 with
    | none =>
      simp [reCore_eq_grammarCore, all_parts_congr _ _ reBuildId_eq_grammarBuildId]
    | some p =>
      simp [reCore_eq_grammarCore, all_parts_congr _ _ rePreId_eq_grammarPreId,
        all_parts_congr _ _ reBuildId_eq_grammarBuildId]

theorem cmpChars_eq_iff : ∀ {a b : List Char}, cmpChars a b = .eq ↔ a = b := by
  intro a
  induction a with
  | nil => intro b; cases b <;> simp [cmpChars]
  | cons x xs ih =>
    intro b
    cases b with
    | nil => simp [cmpChars]
    | cons y ys =>
      by_cases h1 : x < y
      · simp only [cmpChars, if_pos h1]
        constructor
        · intro h; exact absurd h (by simp)
        · intro h
          injection h with hx _
          exact absurd (hx ▸ h1) (lt_irrefl x)
      · by_cases h2 : y < x
        · simp only [cmpChars, if_neg h1, if_pos h2]
          constructor
          · intro h; exact absurd h (by simp)
          · intro h
            injection h with hx _
            exact absurd (hx ▸ h2) (lt_irrefl x)
        · have hxy : x = y := le_antisymm (not_lt.mp h2) (not_lt.mp h1)
          subst hxy
          simp [cmpChars, lt_self_iff_false, ih]

theorem cmpChars_gt_iff_lt : ∀ {a b : List Char},
    cmpChars a b = .gt ↔ cmpChars b a = .lt := by
  intro a
  induction a with
  | nil => intro b; cases b <;> simp [cmpChars]
  | cons x xs ih =>
    intro b
    cases b with
    | nil => simp [cmpChars]
    | cons y ys =>
      by_cases h1 : x < y
      · have h2 : ¬y < x := fun h => absurd (lt_trans h1 h) (lt_irrefl x)
        simp [cmpChars, if_pos h1, if_neg h2]
      · by_cases h2 : y < x
        · simp [cmpChars, if_neg h1, if_pos h2]
        · simp [cmpChars, if_neg h1, if_neg h2, ih]

theorem cmpChars_lt_trans : ∀ {a b c : List Char},
    cmpChars a b = .lt → cmpChars b c = .lt → cmpChars a c = .lt := by
  intro a
  induction a with
  | nil =>
    intro b c hab hbc
    cases c with
    | nil =>
      cases b with
      | nil => exact absurd hab (by simp [cmpChars])
      | cons y ys => exact absurd hbc (by simp [cmpChars])
    | cons z zs => simp [cmpChars]
  | cons x xs ih =>
    intro b c hab hbc
    cases b with
    | nil => exact absurd hab (by simp [cmpChars])
    | cons y ys =>
      cases c with
      | nil => exact absurd hbc (by simp [cmpChars])
      | cons z zs =>
        by_cases hxy : x < y
        · by_cases hyz : y < z
          · have hxz : x < z := lt_trans hxy hyz
            simp [cmpChars, if_pos hxz]
          · by_cases hzy : z < y
            · exact absurd hbc (by simp [cmpChars, if_neg hyz, if_pos hzy])
            · have : y = z := le_antisymm (not_lt.mp hzy) (not_lt.mp hyz)
              have hxz : x < z := this ▸ hxy
              simp [cmpChars, if_pos hxz]
        · by_cases hyx : y < x
          · exact absurd hab (by simp [cmpChars, if_neg hxy, if_pos hyx])
          · have hxy' : x = y := le_antisymm (not_lt.mp hyx) (not_lt.mp hxy)
            by_cases hyz : y < z
            · have hxz : x < z := hxy' ▸ hyz
              simp [cmpChars, if_pos hxz]
            · by_cases hzy : z < y
              · exact absurd hbc (by simp [cmpChars, if_neg hyz, if_pos hzy])
              · have hyz' : y = z := le_antisymm (not_lt.mp hzy) (not_lt.mp hyz)
                have hxz : ¬x < z := hyz' ▸ hxy' ▸ (lt_irrefl x)
                have hzx : ¬z < x := hyz' ▸ hxy' ▸ (lt_irrefl x)
                have hab' : cmpChars xs ys = .lt := by
                  rw [cmpChars, if_neg hxy, if_neg hyx] at hab
                  exact hab
                have hbc' : cmpChars ys zs = .lt := by
                  rw [cmpChars, if_neg hyz, if_neg hzy] at hbc
                  exact hbc
                rw [cmpChars, if_neg hxz, if_neg hzx]
                exact ih hab' hbc'

theorem localeCmp_eq_iff {a b : String} : localeCmp a b = .eq ↔ a = b := by
  unfold localeCmp
  rw [cmpChars_eq_iff, String.toList_inj]

theorem localeCmp_not_gt {a b : String} (h : localeCmp a b ≠ .gt) :
    localeCmp a b = .lt ∨ a = b := by
  cases hc : localeCmp a b with
  | lt => exact Or.inl rfl
  | eq => exact Or.inr (localeCmp_eq_iff.mp hc)
  | gt => exact absurd hc h

theorem localeCmp_gt_iff_lt {a b : String} :
    localeCmp a b = .gt ↔ localeCmp b a = .lt := by
  unfold localeCmp
  exact cmpChars_gt_iff_lt

theorem localeCmp_lt_trans {a b c : String} (h1 : localeCmp a b = .lt)
    (h2 : localeCmp b c = .lt) : localeCmp a c = .lt := by
  unfold localeCmp at h1 h2 ⊢
  exact cmpChars_lt_trans h1 h2

instance entryLE.total : IsTotal RegistryEntry entryLE where
  total a b := by
    unfold entryLE entryCmp
    by_cases h : a.handle = b.handle
    · rw [if_neg (not_not_intro h), if_neg (not_not_intro h.symm)]
      cases hc : localeCmp a.id b.id with
      | lt => exact Or.inl (by simp)
      | eq => exact Or.inl (by simp)
      | gt =>
        refine Or.inr ?_
        rw [localeCmp_gt_iff_lt.mp hc]
        simp
    · rw [if_pos h, if_pos (fun hh => h hh.symm)]
      cases hc : localeCmp a.handle b.handle with
      | lt => exact Or.inl (by simp)
      | eq => exact absurd (localeCmp_eq_iff.mp hc) h
      | gt =>
        refine Or.inr ?_
        rw [localeCmp_gt_iff_lt.mp hc]
        simp

instance entryLE.trans : IsTrans RegistryEntry entryLE where
  trans a b c hab hbc := by
    unfold entryLE entryCmp at hab hbc ⊢
    by_cases h1 : a.handle = b.handle
    · rw [if_neg (not_not_intro h1)] at hab
      by_cases h2 : b.handle = c.handle
      · rw [if_neg (not_not_intro h2)] at hbc
        rw [if_neg (not_not_intro (h1.trans h2))]
        rcases localeCmp_not_gt hab with hlt1 | heq1
        · rcases localeCmp_not_gt hbc with hlt2 | heq2
          · rw [localeCmp_lt_trans hlt1 hlt2]
            simp
          · rw [← heq2]
            exact hab
        · rw [heq1]
          exact hbc
      · rw [if_pos h2] at hbc
        have hbc' : localeCmp b.handle c.handle = .lt :=
          (localeCmp_not_gt hbc).resolve_right h2
        have hac : localeCmp a.handle c.handle = .lt := by
          rw [h1]; exact hbc'
        have hne : a.handle ≠ c.handle := by
          intro he
          have heq := localeCmp_eq_iff.mpr he
          rw [hac] at heq
          cases heq
        rw [if_pos hne, hac]
        simp
    · rw [if_pos h1] at hab
      have hab' : localeCmp a.handle b.handle = .lt :=
        (localeCmp_not_gt hab).resolve_right h1
      by_cases h2 : b.handle = c.handle
      · have hac : localeCmp a.handle c.handle = .lt := by
          rw [← h2]; exact hab'
        have hne : a.handle ≠ c.handle := by
          intro he
          have heq := localeCmp_eq_iff.mpr he
          rw [hac] at heq
          cases heq
        rw [if_pos hne, hac]
        simp
      · rw [if_pos h2] at hbc
        have hbc' : localeCmp b.handle c.handle = .lt :=
          (localeCmp_not_gt hbc).resolve_right h2
        have hac : localeCmp a.handle c.handle = .lt :=
          localeCmp_lt_trans hab' hbc'
        have hne : a.handle ≠ c.handle := by
          intro he
          have heq := localeCmp_eq_iff.mpr he
          rw [hac] at heq
          cases heq
        rw [if_pos hne, hac]
        simp

/-! ### Round-trip helpers: decoding an encoded value -/

theorem decode_encode_author (a : Author) (h : authorValid a = true) :
    decodeAuthor (encodeAuthor a) = .ok a := by
  cases a with
  | str s => rfl
  | obj name email url =>
    cases email with
    | none =>
      cases url with
      | none => rfl
      | some u =>
        have hu : isUrl u = true := by simpa [authorValid, optValid] using h
        simp [encodeAuthor, decodeAuthor, getStr, getOptStr, Json.getField,
          lookupField, checkOptStr, hu, Bind.bind, Except.bind, Functor.map,
          Except.map, pure, Except.pure]
    | some e =>
      have he : isEmail e = true := by
        simp [authorValid, optValid] at h
        exact h.1
      cases url with
      | none =>
        simp [encodeAuthor, decodeAuthor, getStr, getOptStr, Json.getField,
          lookupField, checkOptStr, he, Bind.bind, Except.bind, Functor.map,
          Except.map, pure, Except.pure]
      | some u =>
        have hu : isUrl u = true := by
          simp [authorValid, optValid] at h
          exact h.2
        simp [encodeAuthor, decodeAuthor, getStr, getOptStr, Json.getField,
          lookupField, checkOptStr, he, hu, Bind.bind, Except.bind, Functor.map,
          Except.map, pure, Except.pure]

theorem decode_encode_release (r : RegistryEntryRelease)
    (h : releaseValid r = true) : decodeRelease (encodeRelease r) = .ok r := by
  have hd : isoDatetime r.publishedAt = true := h
  simp [decodeRelease, encodeRelease, getStr, Json.getField, lookupField, hd,
    Bind.bind, Except.bind, Functor.map, Except.map, pure, Except.pure]

theorem decodeAll_map {α : Type} (d : Json → Except String α) (enc : α → Json)
    (xs : List α) (h : ∀ x ∈ xs, d (enc x) = .ok x) :
    decodeAll d (xs.map enc) = .ok xs := by
  induction xs with
  | nil => rfl
  | cons x rest ih =>
    simp only [List.map_cons, decodeAll]
    rw [h x (by simp)]
    rw [ih (fun y hy => h y (by simp [hy]))]
    rfl

theorem decode_encode_entry (e : RegistryEntry) (h : registryEntryValid e = true) :
    decodeRegistryEntry (encodeRegistryEntry e) = .ok e := by
  simp only [registryEntryValid, Bool.and_eq_true, Bool.not_eq_true'] at h
  obtain ⟨⟨⟨hae, hav⟩, hre⟩, hrv⟩ := h
  rw [List.all_eq_true] at hav hrv
  have hauth : decodeAll decodeAuthor (e.authors.map encodeAuthor) = .ok e.authors :=
    decodeAll_map _ _ _ (fun a ha => decode_encode_author a (hav a ha))
  have hrel : decodeAll decodeRelease (e.releases.map encodeRelease) = .ok e.releases :=
    decodeAll_map _ _ _ (fun r hr => decode_encode_release r (hrv r hr))
  simp [decodeRegistryEntry, encodeRegistryEntry, getStr, getArr, Json.getField,
    lookupField, hauth, hrel, hae, hre,
    Bind.bind, Except.bind, Functor.map, Except.map, pure, Except.pure]

theorem decode_encode_index (x : RegistryIndex) (h : registryIndexValid x = true) :
    decodeRegistryIndex (registryIndexToJson x) = .ok x := by
  simp only [registryIndexValid, Bool.and_eq_true] at h
  obtain ⟨hg, hwv⟩ := h
  rw [List.all_eq_true] at hwv
  have hw : decodeAll decodeRegistryEntry (x.widgets.map encodeRegistryEntry)
      = .ok x.widgets :=
    decodeAll_map _ _ _ (fun w hwm => decode_encode_entry w (hwv w hwm))
  simp [decodeRegistryIndex, registryIndexToJson, getInt, getStr, getArr,
    Json.getField, lookupField, hw, hg,
    Bind.bind, Except.bind, Functor.map, Except.map, pure, Except.pure]

/-! ### Merge-loop helpers -/

theorem mergeUpdate_of_not_found (ws : List RegistryEntry) (u : RegistryUpdate)
    (h : ∀ e ∈ ws, ¬(e.handle = u.handle ∧ e.id = u.id)) :
    mergeUpdate ws u = ws ++ [freshEntry u] := by
  induction ws with
  | nil => rfl
  | cons e rest ih =>
    have he := h e (List.mem_cons_self e rest)
    simp only [mergeUpdate, if_neg he]
    rw [ih (fun x hx => h x (List.mem_cons_of_mem _ hx))]
    simp

theorem mergeUpdate_of_found (pre : List RegistryEntry) (e : RegistryEntry)
    (post : List RegistryEntry) (u : RegistryUpdate)
    (hkey : e.handle = u.handle ∧ e.id = u.id)
    (hpre : ∀ x ∈ pre, ¬(x.handle = u.handle ∧ x.id = u.id)) :
    mergeUpdate (pre ++ e :: post) u = pre ++ updateEntry u e :: post := by
  induction pre with
  | nil => simp [mergeUpdate, if_pos hkey]
  | cons p ps ih =>
    have hp := hpre p (List.mem_cons_self p ps)
    simp only [List.cons_append, mergeUpdate, if_neg hp, List.append_eq]
    rw [ih (fun x hx => hpre x (List.mem_cons_of_mem _ hx))]

/-! ### Publish-loop helpers -/

theorem runPublishLoop_length (clock : Nat → String) (start : Nat)
    (inputs : List (PublishPlanEntry × OrasPushOutput)) :
    (runPublishLoop clock start inputs).length = inputs.length := by
  induction inputs generalizing start with
  | nil => rfl
  | cons ep rest ih =>
    cases ep with
    | mk e p => simp [runPublishLoop, ih]

theorem runPublishLoop_get (clock : Nat → String) (start : Nat)
    (inputs : List (PublishPlanEntry × OrasPushOutput)) (i : Nat)
    (h : i < inputs.length) :
    (runPublishLoop clock start inputs).get
        ⟨i, by rw [runPublishLoop_length]; exact h⟩ =
      processEntry (clock (start + i)) (inputs.get ⟨i, h⟩).1
        (inputs.get ⟨i, h⟩).2 := by
  induction inputs generalizing start i with
  | nil => cases h
  | cons ep rest ih =>
    cases ep with
    | mk e p =>
      cases i with
      | zero => simp [runPublishLoop]
      | succ n =>
        have hn : n < rest.length := Nat.lt_of_succ_lt_succ h
        have harg : start + (n + 1) = (start + 1) + n := by omega
        rw [harg]
        have := ih (start + 1) n hn
        simpa [runPublishLoop, List.get] using this

/-! ## Claim theorems -/

/-- C1: during the post-loop index merge each accumulated update is looked up
by `(handle, id)`. If no entry matches, a new entry is created whose releases
list contains exactly the one new release and whose name/authors/description
come from the update's manifest. If an entry matches (the first such), its
name, authors and description are overwritten with the manifest's values and
the new release is PREPENDED to the front of its releases list, earlier
releases left in place; all other entries are untouched. -/
theorem c1_merge_insert_or_update (ws : List RegistryEntry) (u : RegistryUpdate) :
    ((∀ e ∈ ws, ¬(e.handle = u.handle ∧ e.id = u.id)) →
      mergeUpdate ws u = ws ++
        [{ handle := u.handle, id := u.id, name := u.manifest.name,
           authors := u.manifest.authors, description := u.manifest.description,
           releases := [⟨u.widget.version, u.publishedAt, u.digest⟩] }]) ∧
    (∀ pre e post, ws = pre ++ e :: post →
      (e.handle = u.handle ∧ e.id = u.id) →
      (∀ x ∈ pre, ¬(x.handle = u.handle ∧ x.id = u.id)) →
      mergeUpdate ws u = pre ++
        { handle := e.handle, id := e.id, name := u.manifest.name,
          authors := u.manifest.authors, description := u.manifest.description,
          releases := ⟨u.widget.version, u.publishedAt, u.digest⟩ :: e.releases }
          :: post) := by
  constructor
  · intro h
    rw [mergeUpdate_of_not_found ws u h]
    rfl
  · intro pre e post hws hkey hpre
    subst hws
    rw [mergeUpdate_of_found pre e post u hkey hpre]
    rfl

/-- C1 witness: both branches of the theorem at concrete inputs. -/
theorem c1_merge_insert_or_update_witness :
    mergeUpdate [] sampleUpdate1 =
      [⟨"acme", "clock", "Clock", [.str "A"], "A clock",
        [⟨"1.0.0", "2024-01-01T00:00:00Z", "sha256:1111"⟩]⟩] ∧
    mergeUpdate [sampleEntry] sampleUpdate1 =
      [⟨"acme", "clock", "Clock", [.str "A"], "A clock",
        [⟨"1.0.0", "2024-01-01T00:00:00Z", "sha256:1111"⟩,
         ⟨"0.9.0", "2023-12-01T00:00:00Z", "sha256:0000"⟩]⟩] := by
  constructor
  · exact ((c1_merge_insert_or_update [] sampleUpdate1).1
      (by intro e he; cases he)).trans (by decide)
  · exact ((c1_merge_insert_or_update [sampleEntry] sampleUpdate1).2
      [] sampleEntry [] rfl ⟨rfl, rfl⟩ (by intro x hx; cases hx)).trans (by decide)

/-- C2 counterexample: the claim is FALSE on the code —
`PublishPlanEntrySchema` applies no charset check to `id` (it is a plain
`z.string()`); a plan entry whose id `"bad id!"` contains a space and `!`
(both outside `[a-zA-Z0-9-_]`) is ACCEPTED by publish-plan validation. -/
theorem c2_counterexample :
    safeIdAccepts "bad id!" = false ∧
    decodePublishPlanEntry badIdPlanEntryJson =
      .ok ⟨"acme", "bad id!", sampleWidget, sampleManifest⟩ :=
  ⟨by decide, by rfl⟩

/-- C2 amended: publish-plan validation does not constrain the id charset —
an entry with ANY string id (empty, or containing characters outside
`[a-zA-Z0-9-_]`) is accepted whenever its widget and manifest validate; the
`SAFE_ID_REGEX` restriction is enforced elsewhere, on the record keys of
`WidgetsSchema`. -/
theorem c2_amended (handle idStr : String) (wj mj : Json) (w : Widget)
    (m : WidgetManifest) (hw : decodeWidget wj = .ok w)
    (hm : decodeManifest mj = .ok m) :
    decodePublishPlanEntry (.obj [("handle", .str handle), ("id", .str idStr),
        ("widget", wj), ("manifest", mj)]) = .ok ⟨handle, idStr, w, m⟩ ∧
    (∀ k v, safeIdAccepts k = false →
      decodeWidgets (.obj [(k, v)]) =
        .error ("widgets: key does not match SAFE_ID_REGEX: " ++ k)) := by
  constructor
  · simp [decodePublishPlanEntry, getStr, Json.getField, lookupField, hw, hm,
      Bind.bind, Except.bind, pure, Except.pure]
  · intro k v hk
    simp [decodeWidgets, decodeWidgetsFields, hk]

/-- C2 amended witness: an EMPTY id is accepted together with the sample
widget and manifest. -/
theorem c2_amended_witness :
    decodePublishPlanEntry (.obj [("handle", .str "acme"), ("id", .str ""),
        ("widget", sampleWidgetJson), ("manifest", sampleManifestJson)]) =
      .ok ⟨"acme", "", sampleWidget, sampleManifest⟩ :=
  (c2_amended "acme" "" sampleWidgetJson sampleManifestJson sampleWidget
    sampleManifest rfl rfl).1

/-- C3: the claim states the intended behavior, but the code fails on it —
when `index.json` is absent from the registry directory,
`parseRegistryIndex` does not produce an empty default index: `fs.readFile`
throws (ENOENT) and the run aborts, so an end-to-end run over an empty prior
registry cannot succeed. -/
theorem c3_absent_index_is_error :
    parseRegistryIndexFile none =
      .error "ENOENT: no such file or directory: index.json" := rfl

/-- C4: after every update pass the persisted `widgets` list is sorted
ascending by `(handle, id)` under string comparison (and is a permutation of
the merged entries), for every prior index and update list; the spec's
example [("b","1"),("a","2"),("a","1")] sorts to
[("a","1"),("a","2"),("b","1")]. -/
theorem c4_widgets_sorted (prior : RegistryIndex) (nowIso : String)
    (updates : List RegistryUpdate) :
    List.Sorted entryLE (mergeRegistryIndex prior nowIso updates).widgets ∧
    List.Perm (mergeRegistryIndex prior nowIso updates).widgets
      (updates.foldl mergeUpdate prior.widgets) ∧
    sortWidgets [entryB1, entryA2, entryA1] = [entryA1, entryA2, entryB1] := by
  refine ⟨?_, ?_, by decide⟩
  · exact List.sorted_insertionSort entryLE _
  · exact List.perm_insertionSort entryLE _

/-- C5: for every processed plan entry, `publishedAt` equals the push tool's
`org.opencontainers.image.created` annotation when that annotation is
present in the push result, and otherwise the wall clock at the moment THAT
entry is processed (`clock i` for the i-th entry — not the pipeline start
and not the merge pass's shared `generatedAt`). -/
theorem c5_published_at (clock : Nat → String)
    (inputs : List (PublishPlanEntry × OrasPushOutput)) (i : Nat)
    (h : i < inputs.length) :
    ((runPublishLoop clock 0 inputs).get
        ⟨i, by rw [runPublishLoop_length]; exact h⟩).publishedAt =
      match (inputs.get ⟨i, h⟩).2.annotations.bind
          (fun as => lookupStr as "org.opencontainers.image.created") with
      | some created => created
      | none => clock i := by
  rw [runPublishLoop_get clock 0 inputs i h]
  simp [processEntry, selectPublishedAt]

/-- C5 witness: the first sample push result carries a `created` annotation,
which wins; the second has no annotations and gets its own loop instant
`clock 1`. -/
theorem c5_published_at_witness :
    ((runPublishLoop sampleClock 0 sampleLoopInputs).get
        ⟨0, by decide⟩).publishedAt = "2024-03-03T03:03:03Z" ∧
    ((runPublishLoop sampleClock 0 sampleLoopInputs).get
        ⟨1, by decide⟩).publishedAt = "2024-05-05T00:01:00Z" := by
  constructor
  · exact (c5_published_at sampleClock sampleLoopInputs 0 (by decide)).trans
      (by decide)
  · exact (c5_published_at sampleClock sampleLoopInputs 1 (by decide)).trans
      (by decide)

/-- C6: the `version` validation of WidgetSchema / WidgetManifestSchema
accepts exactly the canonical SemVer grammar: `SEMVER_REGEX` agrees with the
grammar on EVERY string; in particular `"1.2"` and `"v1.2.3"` are rejected
(shown for a widget and a manifest respectively) and grammar-conforming
versions are accepted. -/
theorem c6_semver_exact :
    (∀ s : String, semverAccepts s = canonicalSemver s) ∧
    semverAccepts "1.2" = false ∧
    semverAccepts "v1.2.3" = false ∧
    decodeWidget badVersionWidgetJson = .error "widget.version: invalid semver" ∧
    decodeManifest badVersionManifestJson =
      .error "manifest.version: invalid semver" ∧
    semverAccepts "1.2.3" = true ∧
    semverAccepts "1.0.0-alpha.1+build.5" = true ∧
    decodeWidget sampleWidgetJson = .ok sampleWidget :=
  ⟨fun s => semverMatchChars_eq_canonical s.toList, by decide, by decide,
    by rfl, by rfl, by decide, by decide, by rfl⟩

/-- C7 counterexample: the claim's "never includes an annotation with an
empty value" is FALSE on the code — with a schema-valid manifest whose
`license` is the empty string, the command line contains the annotation
`org.opencontainers.image.licenses=` (an empty value): the code filters only
`undefined` values, not empty strings. -/
theorem c7_counterexample :
    manifestValid emptyLicenseManifest = true ∧
    "org.opencontainers.image.licenses=" ∈
      pushArgs "ghcr.io/acme/clock" sampleWidget emptyLicenseManifest false :=
  ⟨by decide, by decide⟩

/-- C7 amended: the pusher includes one `org.opencontainers.image.<key>`
annotation for exactly the standard keys whose value is defined — authors,
url, source, version, revision, vendor, licenses, title, description, in
that order — and never sets `created` (its value is always undefined and is
left to the push tool's default); annotations whose defined value is the
empty string are still sent. -/
theorem c7_annotations_exact (w : Widget) (m : WidgetManifest) :
    annotationArgs (standardAnnotations w m) =
      ["--annotation",
       "org.opencontainers.image.authors=" ++ stringifyAuthors m.authors,
       "--annotation", "org.opencontainers.image.url=" ++ m.homepage,
       "--annotation",
       "org.opencontainers.image.source=" ++ (w.repo ++ "@" ++ w.commit),
       "--annotation", "org.opencontainers.image.version=" ++ w.version,
       "--annotation", "org.opencontainers.image.revision=" ++ w.commit,
       "--annotation", "org.opencontainers.image.vendor=Deskulpt",
       "--annotation", "org.opencontainers.image.licenses=" ++ m.license,
       "--annotation", "org.opencontainers.image.title=" ++ m.name,
       "--annotation",
       "org.opencontainers.image.description=" ++ m.description] ∧
    (standardAnnotations w m).lookup "created" = some none :=
  ⟨rfl, rfl⟩

/-- C8: for every schema-valid RegistryIndex value, writing it with
`writeRegistryIndex` and re-parsing the written file with
`parseRegistryIndex` yields a value equal to the original. -/
theorem c8_write_parse_roundtrip (x : RegistryIndex)
    (h : registryIndexValid x = true) :
    parseRegistryIndexFile (writeRegistryIndexFile x) = .ok x :=
  decode_encode_index x h

/-- C8 witness: the round-trip at a concrete valid index. -/
theorem c8_write_parse_roundtrip_witness :
    registryIndexValid sampleIndex = true ∧
    parseRegistryIndexFile (writeRegistryIndexFile sampleIndex) =
      .ok sampleIndex :=
  ⟨by decide, c8_write_parse_roundtrip sampleIndex (by decide)⟩

/-- C9: if a plan contains two entries with the same `(handle, id)` and no
entry for the pair pre-exists, the merged list contains exactly one entry
for the pair, with releases `[second, first]` (later-processed release
first) and name/authors/description from the LATER entry's manifest;
`(handle, id)` uniqueness is preserved. -/
theorem c9_duplicate_pair (ws : List RegistryEntry) (u1 u2 : RegistryUpdate)
    (hws : ∀ e ∈ ws, ¬(e.handle = u1.handle ∧ e.id = u1.id))
    (hh : u2.handle = u1.handle) (hi : u2.id = u1.id) :
    mergeUpdate (mergeUpdate ws u1) u2 = ws ++
      [{ handle := u1.handle, id := u1.id, name := u2.manifest.name,
         authors := u2.manifest.authors,
         description := u2.manifest.description,
         releases := [⟨u2.widget.version, u2.publishedAt, u2.digest⟩,
                      ⟨u1.widget.version, u1.publishedAt, u1.digest⟩] }] ∧
    ((mergeUpdate (mergeUpdate ws u1) u2).filter
        (fun e => decide (e.handle = u1.handle ∧ e.id = u1.id))).length = 1 := by
  have h1 : mergeUpdate ws u1 = ws ++ [freshEntry u1] :=
    mergeUpdate_of_not_found ws u1 hws
  have hkey : (freshEntry u1).handle = u2.handle ∧ (freshEntry u1).id = u2.id := by
    constructor
    · rw [hh]; rfl
    · rw [hi]; rfl
  have hpre : ∀ x ∈ ws, ¬(x.handle = u2.handle ∧ x.id = u2.id) := by
    intro x hx hcon
    exact hws x hx ⟨hcon.1.trans hh, hcon.2.trans hi⟩
  have h2 : mergeUpdate (ws ++ freshEntry u1 :: []) u2 =
      ws ++ updateEntry u2 (freshEntry u1) :: [] :=
    mergeUpdate_of_found ws (freshEntry u1) [] u2 hkey hpre
  have hres : updateEntry u2 (freshEntry u1) =
      { handle := u1.handle, id := u1.id, name := u2.manifest.name,
        authors := u2.manifest.authors,
        description := u2.manifest.description,
        releases := [⟨u2.widget.version, u2.publishedAt, u2.digest⟩,
                     ⟨u1.widget.version, u1.publishedAt, u1.digest⟩] } := rfl
  constructor
  · rw [h1, h2, hres]
  · rw [h1, h2, hres, List.filter_append]
    have hnil : ws.filter
        (fun e => decide (e.handle = u1.handle ∧ e.id = u1.id)) = [] := by
      rw [List.filter_eq_nil_iff]
      intro a ha
      simpa using hws a ha
    rw [hnil]
    simp

/-- C9 witness: both sample updates target `(acme, clock)` over an empty
list. -/
theorem c9_duplicate_pair_witness :
    mergeUpdate (mergeUpdate [] sampleUpdate1) sampleUpdate2 =
      [⟨"acme", "clock", "Clock II", [.str "B"], "A nicer clock",
        [⟨"1.1.0", "2024-01-02T00:00:00Z", "sha256:2222"⟩,
         ⟨"1.0.0", "2024-01-01T00:00:00Z", "sha256:1111"⟩]⟩] :=
  ((c9_duplicate_pair [] sampleUpdate1 sampleUpdate2
      (by intro e he; cases he) rfl rfl).1).trans (by decide)

/-- C10: `parsePublisher` and `parseWidgets` return `undefined` without any
error exactly when the corresponding YAML file
(`publishers/<entry>.yaml` / `widgets/<entry>.yaml`) does not exist at the
given commit; when the file exists its content is schema-validated, with
malformed content producing a validation error. -/
theorem c10_aux_lookups (store : GitStore) (entry commit : String) :
    (store ("publishers/" ++ entry ++ ".yaml") commit = none →
      parsePublisher store entry commit = .ok none) ∧
    (∀ j, store ("publishers/" ++ entry ++ ".yaml") commit = some j →
      parsePublisher store entry commit = (decodePublisher j).map some) ∧
    (store ("widgets/" ++ entry ++ ".yaml") commit = none →
      parseWidgets store entry commit = .ok none) ∧
    (∀ j, store ("widgets/" ++ entry ++ ".yaml") commit = some j →
      parseWidgets store entry commit = (decodeWidgets j).map some) := by
  refine ⟨fun h => ?_, fun j h => ?_, fun h => ?_, fun j h => ?_⟩ <;>
    simp [parsePublisher, parseWidgets, h]

/-- C10 witness: absent file → `ok none`; a valid publisher document →
validated value; a document violating the exactly-one-of refine →
validation error; a widgets document → validated record. -/
theorem c10_aux_lookups_witness :
    parsePublisher emptyStore "acme" sampleCommit = .ok none ∧
    parsePublisher sampleStore "acme" sampleCommit =
      .ok (some ⟨none, some 42, none⟩) ∧
    parsePublisher badStore "acme" sampleCommit =
      .error "Exactly one of organization or user should be provided" ∧
    parseWidgets sampleStore "acme" sampleCommit =
      .ok (some [("clock", sampleWidget)]) := by
  refine ⟨?_, ?_, ?_, ?_⟩
  · exact (c10_aux_lookups emptyStore "acme" sampleCommit).1 rfl
  · exact ((c10_aux_lookups sampleStore "acme" sampleCommit).2.1
      samplePublisherJson rfl).trans (by rfl)
  · exact ((c10_aux_lookups badStore "acme" sampleCommit).2.1
      badPublisherJson rfl).trans (by rfl)
  · exact ((c10_aux_lookups sampleStore "acme" sampleCommit).2.2.2
      (Json.obj [("clock", sampleWidgetJson)]) rfl).trans (by rfl)

end Widgets
